import Mathlib

/-!
Shallow embedding of the QueryMancer text-normalization and
mapping-generation core (`querymancer/utils.py` and
`querymancer/mapping_generator.py`).

Strings are modelled as Lean `String` (a wrapper around `List Char`);
the character classes of the Python regexes and of `str.lower` /
`str.strip` / `str.split` are modelled over their ASCII behaviour,
which is the range the source's identifiers and fixtures live in.
Python `set()` deduplication has no specified order; it is modelled by
`List.dedup` (membership-faithful; every property proved below about
deduplicated collections is order-insensitive).
-/

namespace Querymancer

/-- ASCII lowercasing of a single character, as `str.lower` acts on
`A`-`Z`. -/
def toLowerChar (c : Char) : Char :=
  if 65 ≤ c.toNat ∧ c.toNat ≤ 90 then Char.ofNat (c.toNat + 32) else c

/-- ASCII uppercasing of a single character, as `str.upper` acts on
`a`-`z`. -/
def toUpperChar (c : Char) : Char :=
  if 97 ≤ c.toNat ∧ c.toNat ≤ 122 then Char.ofNat (c.toNat - 32) else c

/-- The character class `[a-zA-Z0-9]` of the regex in `normalize_text`. -/
def isAsciiAlnum (c : Char) : Bool :=
  decide ((65 ≤ c.toNat ∧ c.toNat ≤ 90) ∨ (97 ≤ c.toNat ∧ c.toNat ≤ 122) ∨
    (48 ≤ c.toNat ∧ c.toNat ≤ 57))

/-- The regex class `\s` (Python whitespace, ASCII part):
space, tab, newline, vertical tab, form feed, carriage return. -/
def isPySpace (c : Char) : Bool :=
  decide (c.toNat = 32 ∨ (9 ≤ c.toNat ∧ c.toNat ≤ 13))

/-- One character of `re.sub(r'[^a-zA-Z0-9\s]', ' ', text)`:
alphanumerics and whitespace survive, everything else becomes a space. -/
def stepChar (c : Char) : Char :=
  if isAsciiAlnum c || isPySpace c then c else ' '

/-- The two character-level stages of `normalize_text` composed
(replacement first, lowercasing second), as they act on one character. -/
def normChar (c : Char) : Char := toLowerChar (stepChar c)

/-- Single pass of `str.split()` with no separator, carrying the
word-in-progress in reverse order. -/
def pyWordsAux : List Char → List Char → List (List Char)
  | [], acc => if acc = [] then [] else [acc.reverse]
  | c :: cs, acc =>
    if isPySpace c then
      if acc = [] then pyWordsAux cs [] else acc.reverse :: pyWordsAux cs []
    else pyWordsAux cs (c :: acc)

/-- `str.split()` with no separator: maximal runs of non-whitespace
characters, outer whitespace discarded. -/
def pyWords (l : List Char) : List (List Char) := pyWordsAux l []

/-- `' '.join(words)`. -/
def joinSp : List (List Char) → List Char
  | [] => []
  | [w] => w
  | w :: w2 :: ws => w ++ ' ' :: joinSp (w2 :: ws)

/-- `str.strip()` (ASCII whitespace). -/
def pyStripL (l : List Char) : List Char :=
  ((l.dropWhile isPySpace).reverse.dropWhile isPySpace).reverse

/-- `str.strip()` on a `String`. -/
def pyStrip (s : String) : String := ⟨pyStripL s.data⟩

/-- `sub in s` for Python strings (substring containment), on lists. -/
def containsHere : List Char → List Char → Bool
  | [], _ => true
  | _ :: _, [] => false
  | a :: as, b :: bs => a == b && containsHere as bs

/-- Whether `pat` occurs as a contiguous substring of `l`. -/
def containsL (pat : List Char) : List Char → Bool
  | [] => pat.isEmpty
  | c :: cs => containsHere pat (c :: cs) || containsL pat cs

/-- Python `sub in s` on `String`s. -/
def pyIn (sub s : String) : Bool := containsL sub.data s.data

/-- Python `s.lower()` (ASCII). -/
def strLower (s : String) : String := ⟨s.data.map toLowerChar⟩

/-- `normalize_text` on the underlying character list: replace every
character outside `[a-zA-Z0-9\s]` with a space, lowercase, split on
whitespace and rejoin with single spaces. -/
def normalizeL (l : List Char) : List Char :=
  joinSp (pyWords ((l.map stepChar).map toLowerChar))

/-- `normalize_text` from `utils.py` (the `if not text` guard returns
`""`, which coincides with the pipeline applied to `""`). -/
def normalize_text (text : String) : String := ⟨normalizeL text.data⟩

/-- The character class `[a-z]`. -/
def isLowerAZ (c : Char) : Bool := decide (97 ≤ c.toNat ∧ c.toNat ≤ 122)

/-- The character class `[A-Z]`. -/
def isUpperAZ (c : Char) : Bool := decide (65 ≤ c.toNat ∧ c.toNat ≤ 90)

/-- First substitution of `camel_case_to_words`:
`re.sub(r'([a-z])([A-Z])', r'\1 \2', text)`, scanning left to right and
resuming after each match (the matched uppercase letter cannot itself
start a new match, so resuming after it is equivalent). -/
def camelPass1 : List Char → List Char
  | [] => []
  | [c] => [c]
  | c1 :: c2 :: rest =>
    if isLowerAZ c1 && isUpperAZ c2 then c1 :: ' ' :: c2 :: camelPass1 rest
    else c1 :: camelPass1 (c2 :: rest)

/-- Second substitution of `camel_case_to_words`:
`re.sub(r'([A-Z])([A-Z][a-z])', r'\1 \2', result)` (the trailing
lowercase letter cannot start a new match, so resuming after the whole
match is equivalent). -/
def camelPass2 : List Char → List Char
  | c1 :: c2 :: c3 :: rest =>
    if isUpperAZ c1 && isUpperAZ c2 && isLowerAZ c3 then
      c1 :: ' ' :: c2 :: c3 :: camelPass2 rest
    else c1 :: camelPass2 (c2 :: c3 :: rest)
  | l => l

/-- `camel_case_to_words` from `utils.py`. -/
def camel_case_to_words (camel_case : String) : String :=
  if camel_case = "" then "" else ⟨camelPass2 (camelPass1 camel_case.data)⟩

/-- `snake_case_to_words` from `utils.py`: underscores to spaces, then
the camelCase pass, then `str.strip()`. -/
def snake_case_to_words (snake_case : String) : String :=
  if snake_case = "" then ""
  else pyStrip (camel_case_to_words
    ⟨snake_case.data.map (fun c => if c == '_' then ' ' else c)⟩)

/-- The fixed `synonym_map` of `generate_synonyms`, in source order. -/
def synonym_map : List (String × List String) := [
  ("id", ["identifier", "key", "number"]),
  ("name", ["title", "label", "description"]),
  ("date", ["time", "timestamp", "created", "modified"]),
  ("user", ["person", "customer", "client", "employee"]),
  ("order", ["purchase", "transaction", "sale"]),
  ("product", ["item", "goods", "service"]),
  ("address", ["location", "place"]),
  ("phone", ["telephone", "mobile", "contact"]),
  ("email", ["mail", "contact"]),
  ("price", ["cost", "amount", "value"]),
  ("quantity", ["amount", "count", "number"]),
  ("status", ["state", "condition"]),
  ("type", ["category", "kind", "classification"]),
  ("code", ["identifier", "reference"]),
  ("description", ["details", "notes", "comments"]),
  ("created", ["added", "inserted", "made"]),
  ("updated", ["modified", "changed", "edited"]),
  ("deleted", ["removed", "archived"]),
  ("active", ["enabled", "current", "valid"]),
  ("inactive", ["disabled", "archived", "old"])]

/-- `generate_synonyms` from `utils.py`: the original word, the exact
match's values, and the values of every key related to the word by
substring containment in either direction; deduplicated (`list(set(…))`). -/
def generate_synonyms (word : String) : List String :=
  let word_lower := strLower word
  ([word] ++
    (match synonym_map.lookup word_lower with | some vs => vs | none => []) ++
    synonym_map.flatMap
      (fun kv => if pyIn kv.1 word_lower || pyIn word_lower kv.1 then kv.2 else [])).dedup

/-- The fixed stop-word set of `extract_meaningful_words`. -/
def stop_words : List String :=
  ["a", "an", "and", "are", "as", "at", "be", "by", "for", "from",
   "has", "he", "in", "is", "it", "its", "of", "on", "that", "the",
   "to", "was", "will", "with", "tbl", "table", "db", "database"]

/-- `extract_meaningful_words` from `utils.py`: normalize, split, keep
words longer than two characters that are not stop words. -/
def extract_meaningful_words (text : String) : List String :=
  ((pyWords (normalize_text text).data).map (fun w => (⟨w⟩ : String))).filter
    (fun w => w.length > 2 && !(stop_words.contains w))

/-- The prefix list of `convert_technical_to_natural`, in source order. -/
def prefixes_to_remove : List String := ["tbl_", "tb_", "table_", "dbo."]

/-- The suffix list of `convert_technical_to_natural`, in source order. -/
def suffixes_to_remove : List String := ["_id", "_key", "_ref", "_tbl", "_table"]

/-- The prefix-stripping loop of `convert_technical_to_natural`:
first prefix (in list order) that matches case-insensitively is removed,
then the loop breaks. -/
def stripFirstPre : List String → String → String
  | [], name => name
  | p :: ps, name =>
    if containsHere p.data (strLower name).data then ⟨name.data.drop p.data.length⟩
    else stripFirstPre ps name

/-- The suffix-stripping loop of `convert_technical_to_natural`:
first suffix (in list order) that matches case-insensitively is removed,
then the loop breaks. -/
def stripFirstSuf : List String → String → String
  | [], name => name
  | s :: ss, name =>
    if containsHere s.data.reverse (strLower name).data.reverse then
      ⟨name.data.take (name.data.length - s.data.length)⟩
    else stripFirstSuf ss name

/-- `str.capitalize()`: first character uppercased, the rest lowercased. -/
def capitalizeWord : List Char → List Char
  | [] => []
  | c :: cs => toUpperChar c :: cs.map toLowerChar

/-- `convert_technical_to_natural` from `utils.py`. -/
def convert_technical_to_natural (technical_name : String) : String :=
  if technical_name = "" then ""
  else
    let name := stripFirstPre prefixes_to_remove technical_name
    let name := stripFirstSuf suffixes_to_remove name
    let natural :=
      if containsL ['_'] name.data then snake_case_to_words name
      else camel_case_to_words name
    ⟨joinSp ((pyWords natural.data).map capitalizeWord)⟩

/-- `create_search_terms` from `utils.py`: the raw identifier, the
natural name when non-empty and different, the meaningful words of the
natural name and their synonyms; deduplicated and stripped of
whitespace-only entries. -/
def create_search_terms (technical_name : String) : List String :=
  let natural := convert_technical_to_natural technical_name
  let words := extract_meaningful_words natural
  (([technical_name] ++
    (if natural ≠ "" ∧ natural ≠ technical_name then [natural] else []) ++
    words ++ words.flatMap generate_synonyms).dedup).filter
    (fun t => pyStrip t != "")

/-- `format_field_description` from `utils.py` (`data_type=None` default
modelled as `Option String`; `if data_type:` treats `""` like `None`). -/
def format_field_description (table_name column_name : String)
    (data_type : Option String) : String :=
  let table_natural := convert_technical_to_natural table_name
  let column_natural := convert_technical_to_natural column_name
  let description := column_natural
  let description :=
    if table_natural ≠ "" ∧ strLower table_natural ≠ strLower column_natural
    then description ++ " from " ++ table_natural else description
  match data_type with
  | none => description
  | some dt =>
    if dt = "" then description
    else
      let dtl := strLower dt
      let type_info :=
        if pyIn "int" dtl || pyIn "numeric" dtl then " (number)"
        else if pyIn "varchar" dtl || pyIn "text" dtl then " (text)"
        else if pyIn "date" dtl || pyIn "time" dtl then " (date/time)"
        else if pyIn "bit" dtl || pyIn "bool" dtl then " (yes/no)"
        else ""
      description ++ type_info

/-- `ColumnInfo` from `schema_extractor.py`. -/
structure ColumnInfo where
  name : String
  data_type : String
  max_length : Option Nat := none
  is_nullable : Bool := true
  default_value : Option String := none
  is_primary_key : Bool := false
  is_foreign_key : Bool := false
  referenced_table : Option String := none
  referenced_column : Option String := none

/-- `TableInfo` from `schema_extractor.py`. -/
structure TableInfo where
  name : String
  schema : String
  columns : List ColumnInfo
  primary_keys : List String := []
  foreign_keys : List (List (String × String)) := []
  row_count : Option Nat := none

/-- `any(term in s for term in pats)`. -/
def anyIn (pats : List String) (s : String) : Bool := pats.any (fun p => pyIn p s)

/-- `MappingGenerator.determine_column_category` from
`mapping_generator.py`, rule for rule in source order. -/
def determine_column_category (column : ColumnInfo) : String :=
  let name_lower := strLower column.name
  let type_lower := strLower column.data_type
  if column.is_primary_key then "identifier"
  else if column.is_foreign_key then "reference"
  else if anyIn ["date", "time", "created", "modified", "updated"] name_lower ||
      anyIn ["date", "time", "timestamp"] type_lower then "datetime"
  else if anyIn ["int", "decimal", "numeric", "float", "money"] type_lower then
    if anyIn ["price", "cost", "amount", "value", "total"] name_lower then "money"
    else if anyIn ["quantity", "count", "number"] name_lower then "quantity"
    else "numeric"
  else if anyIn ["bit", "bool"] type_lower ||
      anyIn ["is_", "has_", "active", "enabled"] name_lower then "boolean"
  else if anyIn ["varchar", "text", "char"] type_lower then
    if anyIn ["email", "mail"] name_lower then "email"
    else if anyIn ["phone", "telephone", "mobile"] name_lower then "phone"
    else if anyIn ["address", "street", "city", "state", "zip"] name_lower then "address"
    else if anyIn ["name", "title", "label"] name_lower then "name"
    else if anyIn ["description", "notes", "comment"] name_lower then "description"
    else "text"
  else "general"

/-- `MappingGenerator.generate_column_examples` from
`mapping_generator.py`. -/
def generate_column_examples (column : ColumnInfo) : List String :=
  let n := convert_technical_to_natural column.name
  let name_lower := strLower column.name
  let examples := ["show me " ++ n, "what is the " ++ n, "find " ++ n]
  let examples := examples ++
    (if column.is_primary_key then
      ["find by " ++ n, "get record with " ++ n, "lookup " ++ n]
    else if pyIn "date" name_lower || pyIn "time" name_lower then
      ["when was " ++ n, "show " ++ n ++ " after", "filter by " ++ n]
    else if anyIn ["price", "cost", "amount", "value", "total"] name_lower then
      ["how much is " ++ n, "total " ++ n, "average " ++ n,
       n ++ " greater than", n ++ " less than"]
    else if anyIn ["quantity", "count", "number"] name_lower then
      ["how many " ++ n, "count of " ++ n, "sum of " ++ n]
    else if anyIn ["name", "title"] name_lower then
      ["find by " ++ n, "search " ++ n, n ++ " contains", n ++ " starts with"]
    else if anyIn ["status", "state", "type", "category"] name_lower then
      ["where " ++ n ++ " is", "filter by " ++ n, "group by " ++ n]
    else [])
  let synonyms := generate_synonyms column.name
  let examples := examples ++
    ((synonyms.take 3).filter (fun s => s != column.name)).map (fun s => "show me " ++ s)
  examples.take 10

/-- The `metadata` block of a column mapping. -/
structure ColMetadata where
  max_length : Option Nat
  is_nullable : Bool
  default_value : Option String
  is_primary_key : Bool
  is_foreign_key : Bool
  referenced_table : Option String
  referenced_column : Option String

/-- One column's mapping document, as assembled by
`MappingGenerator.generate_column_mapping`. -/
structure ColumnMapping where
  technical_name : String
  natural_name : String
  description : String
  data_type : String
  search_terms : List String
  synonyms : List String
  category : String
  examples : List String
  metadata : ColMetadata

/-- `MappingGenerator.generate_column_mapping` from
`mapping_generator.py`. -/
def generate_column_mapping (table_info : TableInfo) (column : ColumnInfo) :
    ColumnMapping where
  technical_name := column.name
  natural_name := convert_technical_to_natural column.name
  description := format_field_description table_info.name column.name (some column.data_type)
  data_type := column.data_type
  search_terms := create_search_terms column.name
  synonyms := generate_synonyms column.name
  category := determine_column_category column
  examples := generate_column_examples column
  metadata := {
    max_length := column.max_length
    is_nullable := column.is_nullable
    default_value := column.default_value
    is_primary_key := column.is_primary_key
    is_foreign_key := column.is_foreign_key
    referenced_table := column.referenced_table
    referenced_column := column.referenced_column }

/-- Python `dict` insertion `d[k] = v`: overwrite in place when the key
exists, otherwise append (insertion order preserved). -/
def dictInsert {β : Type} (d : List (String × β)) (k : String) (v : β) :
    List (String × β) :=
  if d.any (fun kv => kv.1 == k) then
    d.map (fun kv => if kv.1 == k then (k, v) else kv)
  else d ++ [(k, v)]

/-- The `metadata` block of a table mapping. -/
structure TblMetadata where
  schema : String
  table_name : String
  column_count : Nat
  has_primary_key : Bool
  has_foreign_keys : Bool

/-- One table's mapping document, as assembled by
`MappingGenerator.generate_table_mapping`. -/
structure TableMapping where
  technical_name : String
  natural_name : String
  description : String
  search_terms : List String
  synonyms : List String
  columns : List (String × ColumnMapping)
  primary_keys : List String
  foreign_keys : List (List (String × String))
  row_count : Option Nat
  metadata : TblMetadata

/-- The column loop of `generate_table_mapping`:
`columns[column.name] = column_mapping` over the declared columns. -/
def buildColumns (table_info : TableInfo) : List ColumnInfo →
    List (String × ColumnMapping) → List (String × ColumnMapping)
  | [], acc => acc
  | c :: cs, acc =>
    buildColumns table_info cs (dictInsert acc c.name (generate_column_mapping table_info c))

/-- `MappingGenerator.generate_table_mapping` from
`mapping_generator.py`. -/
def generate_table_mapping (table_info : TableInfo) : TableMapping :=
  let natural_name := convert_technical_to_natural table_info.name
  { technical_name := table_info.schema ++ "." ++ table_info.name
    natural_name := natural_name
    description := "Data from the " ++ natural_name ++ " table"
    search_terms := create_search_terms table_info.name
    synonyms := generate_synonyms table_info.name
    columns := buildColumns table_info table_info.columns []
    primary_keys := table_info.primary_keys
    foreign_keys := table_info.foreign_keys
    row_count := table_info.row_count
    metadata := {
      schema := table_info.schema
      table_name := table_info.name
      column_count := table_info.columns.length
      has_primary_key := decide (0 < table_info.primary_keys.length)
      has_foreign_keys := decide (0 < table_info.foreign_keys.length) } }

/-- The search index: Python dict from lowercased term to the list of
paths appended under it. -/
abbrev SIdx := List (String × List String)

/-- Table branch of `generate_search_index`: create the bucket when
absent, then append the table path unconditionally. -/
def addTablePath (idx : SIdx) (term path : String) : SIdx :=
  if idx.any (fun kv => kv.1 == term) then
    idx.map (fun kv => if kv.1 == term then (kv.1, kv.2 ++ [path]) else kv)
  else idx ++ [(term, [path])]

/-- Column branch of `generate_search_index`: create the bucket when
absent, then append the column path only if not already present. -/
def addColPath (idx : SIdx) (term path : String) : SIdx :=
  if idx.any (fun kv => kv.1 == term) then
    idx.map (fun kv =>
      if kv.1 == term then (kv.1, if kv.2.contains path then kv.2 else kv.2 ++ [path])
      else kv)
  else idx ++ [(term, [path])]

/-- `for term in table_search_terms:` loop of `generate_search_index`. -/
def indexTableTerms (path : String) : List String → SIdx → SIdx
  | [], idx => idx
  | t :: ts, idx => indexTableTerms path ts (addTablePath idx (strLower t) path)

/-- `for term in column_search_terms:` loop of `generate_search_index`. -/
def indexColTerms (path : String) : List String → SIdx → SIdx
  | [], idx => idx
  | t :: ts, idx => indexColTerms path ts (addColPath idx (strLower t) path)

/-- `for column in table_info.columns:` loop of `generate_search_index`. -/
def indexColumns (table_name : String) : List ColumnInfo → SIdx → SIdx
  | [], idx => idx
  | c :: cs, idx =>
    indexColumns table_name cs
      (indexColTerms (table_name ++ "." ++ c.name) (create_search_terms c.name) idx)

/-- Outer loop of `generate_search_index` over the `schema_info` dict
(modelled as an association list in iteration order). -/
def indexTables : List (String × TableInfo) → SIdx → SIdx
  | [], idx => idx
  | (tn, ti) :: rest, idx =>
    indexTables rest (indexColumns tn ti.columns (indexTableTerms tn (create_search_terms ti.name) idx))

/-- `MappingGenerator.generate_search_index` from
`mapping_generator.py`. -/
def generate_search_index (schema_info : List (String × TableInfo)) : SIdx :=
  indexTables schema_info []

/-- Invariant maintained while the search index is built: bucket keys
are distinct; any path that is not a table key occurs at most once per
bucket; and a table key occurs in a bucket only under one of that
table's own lowercased search terms. -/
def IndexInv (si : List (String × TableInfo)) (idx : SIdx) : Prop :=
  (idx.map Prod.fst).Nodup ∧
  ∀ tb ∈ idx,
    (∀ p : String, p ∉ si.map Prod.fst → tb.2.count p ≤ 1) ∧
    (∀ kv ∈ si, kv.1 ∈ tb.2 → tb.1 ∈ (create_search_terms kv.2.name).map strLower)

/-- The `client_info` block of the database mapping (the wall-clock
`generation_date` is not modelled). -/
structure ClientInfo where
  client_key : String
  client_name : String
  database : String
  total_tables : Nat
  total_columns : Nat

/-- The complete mapping document assembled by
`MappingGenerator.generate_database_mapping` (timestamps and the fixed
version/generator strings aside). -/
structure DatabaseMapping where
  client_info : ClientInfo
  tables : List (String × TableMapping)
  search_index : SIdx

/-- The `tables[table_name] = table_mapping` loop of
`generate_database_mapping`. -/
def buildTables : List (String × TableInfo) →
    List (String × TableMapping) → List (String × TableMapping)
  | [], acc => acc
  | (tn, ti) :: rest, acc => buildTables rest (dictInsert acc tn (generate_table_mapping ti))

/-- `MappingGenerator.generate_database_mapping` from
`mapping_generator.py`: the empty-input early return (`return {}`) is
modelled as `none`. -/
def generate_database_mapping (client_key client_name database : String)
    (schema_info : List (String × TableInfo)) : Option DatabaseMapping :=
  if schema_info.isEmpty then none
  else
    let tables := buildTables schema_info []
    some {
      client_info := {
        client_key := client_key
        client_name := client_name
        database := database
        total_tables := tables.length
        total_columns := (tables.map (fun kv => kv.2.columns.length)).sum }
      tables := tables
      search_index := generate_search_index schema_info }

/-- Columns of the sample table used to instantiate the proved
properties (mirrors the `dbo.Customers` sample of the source). -/
def sampleColumns : List ColumnInfo := [
  { name := "CustomerID", data_type := "int", is_nullable := false, is_primary_key := true },
  { name := "CustomerName", data_type := "varchar", max_length := some 100,
    is_nullable := false }]

/-- A one-table sample schema used to instantiate the proved properties. -/
def sampleSchema : List (String × TableInfo) :=
  [("dbo.Customers",
    { name := "Customers", schema := "dbo", columns := sampleColumns,
      primary_keys := ["CustomerID"], row_count := some 1000 })]

example : convert_technical_to_natural "tbl_Customer_Orders" = "Customer Orders" := by decide
example : convert_technical_to_natural "CustomerID" = "Customer Id" := by decide
example : convert_technical_to_natural "OrderDate" = "Order Date" := by decide
example : convert_technical_to_natural "IsActive" = "Is Active" := by decide
example : convert_technical_to_natural "user_profile_settings" = "User Profile Settings" := by decide
example : convert_technical_to_natural "_id" = "" := by decide
example : format_field_description "Products" "UnitPrice" (some "decimal") = "Unit Price from Products" := by decide
example : create_search_terms "Customer" = ["Customer", "customer"] := by decide

/-- C2 (counterexample): `convert_technical_to_natural` does not map
`"CustomerID"` to `"Customer ID"`: the final per-word `str.capitalize()`
lowercases every character after the first, so the word `ID` comes out
as `Id`. -/
theorem c2_counterexample : convert_technical_to_natural "CustomerID" ≠ "Customer ID" := by
  decide

/-- C2 (amended): the named fixtures map as claimed except that
`"CustomerID"` yields `"Customer Id"` (segmentation gives the words
`Customer` and `ID`, and `str.capitalize()` renders `ID` as `Id`). -/
theorem c2_fixtures :
    convert_technical_to_natural "tbl_Customer_Orders" = "Customer Orders" ∧
    convert_technical_to_natural "CustomerID" = "Customer Id" ∧
    convert_technical_to_natural "OrderDate" = "Order Date" ∧
    convert_technical_to_natural "IsActive" = "Is Active" ∧
    convert_technical_to_natural "user_profile_settings" = "User Profile Settings" := by
  decide

/-- C3 (counterexample): the description of column `UnitPrice (decimal)`
on table `Products` is not `"Unit Price from Products (number)"`:
`"decimal"` contains neither `int` nor `numeric` (nor any other
recognized fragment), so no type hint is appended. -/
theorem c3_counterexample :
    format_field_description "Products" "UnitPrice" (some "decimal") ≠
      "Unit Price from Products (number)" := by
  decide

/-- C3 (amended): column `UnitPrice (decimal)` on table `Products`
classifies as `money`, and its description is exactly
`"Unit Price from Products"` with no type suffix. -/
theorem c3_unitprice :
    determine_column_category { name := "UnitPrice", data_type := "decimal" } = "money" ∧
    format_field_description "Products" "UnitPrice" (some "decimal") =
      "Unit Price from Products" := by
  decide

/-- C4 (counterexample): synonym lookup on the empty string does not
return an empty list: the empty string is a substring of every synonym
key, so the partial-match rule unions in every key's values. -/
theorem c4_counterexample : generate_synonyms "" ≠ [] := by decide

/-- C4 (amended): on empty input, normalization, natural-name
conversion, search-term building and meaningful-word extraction all
return an empty string or list, but synonym lookup instead returns a
nonempty list. -/
theorem c4_empty_inputs :
    normalize_text "" = "" ∧
    convert_technical_to_natural "" = "" ∧
    create_search_terms "" = [] ∧
    extract_meaningful_words "" = [] ∧
    generate_synonyms "" ≠ [] := by
  decide

/-- C5 (counterexample): the column `analysis_flag (varchar)` (no key
flags; rules 1-4 do not apply) is categorized `boolean` although its
declared type contains no `bit`/`bool`, its name does not start with
`is_` or `has_`, and its name contains neither `active` nor `enabled`:
the code tests `is_`/`has_` by substring containment, and
`analysis_flag` contains `is_`. -/
theorem c5_counterexample :
    determine_column_category { name := "analysis_flag", data_type := "varchar" } = "boolean" ∧
    (pyIn "bit" "varchar" || pyIn "bool" "varchar" ||
     containsHere "is_".data "analysis_flag".data ||
     containsHere "has_".data "analysis_flag".data ||
     pyIn "active" "analysis_flag" || pyIn "enabled" "analysis_flag") = false := by
  decide

/-- C5 (amended): for every column on which rules 1-4 do not apply,
the category is `boolean` if and only if the declared type contains
`bit` or `bool`, or the name contains (not merely starts with) `is_` or
`has_`, or the name contains `active` or `enabled`, case-insensitively. -/
theorem c5_boolean_rule (c : ColumnInfo)
    (h1 : c.is_primary_key = false) (h2 : c.is_foreign_key = false)
    (h3 : (anyIn ["date", "time", "created", "modified", "updated"] (strLower c.name) ||
      anyIn ["date", "time", "timestamp"] (strLower c.data_type)) = false)
    (h4 : anyIn ["int", "decimal", "numeric", "float", "money"] (strLower c.data_type) = false) :
    determine_column_category c = "boolean" ↔
      (anyIn ["bit", "bool"] (strLower c.data_type) ||
       anyIn ["is_", "has_", "active", "enabled"] (strLower c.name)) = true := by
  unfold determine_column_category
  simp only [h1, h2, h3, h4, Bool.false_eq_true, if_false]
  constructor
  · intro h
    by_contra hb
    rw [Bool.not_eq_true] at hb
    rw [hb] at h
    simp only [Bool.false_eq_true, if_false] at h
    repeat' split at h
    all_goals exact absurd h (by decide)
  · intro h
    rw [h]
    simp

/-- C5 (witness): the amended boolean rule instantiated at the column
`active_flag (varchar)`. -/
theorem c5_witness :
    determine_column_category { name := "active_flag", data_type := "varchar" } = "boolean" :=
  (c5_boolean_rule { name := "active_flag", data_type := "varchar" }
    rfl rfl (by decide) (by decide)).mpr (by decide)

set_option maxHeartbeats 1000000 in
/-- C6: `determine_column_category` is total: every column receives
exactly one of the fourteen category strings, and a column flagged as
primary key is always `identifier`, whatever its name and type. -/
theorem c6_total_and_pk_precedence (c : ColumnInfo) :
    determine_column_category c ∈
      ["identifier", "reference", "datetime", "money", "quantity", "numeric",
       "boolean", "email", "phone", "address", "name", "description", "text",
       "general"] ∧
    (c.is_primary_key = true → determine_column_category c = "identifier") := by
  constructor
  · simp only [determine_column_category]
    repeat' split
    all_goals decide
  · intro h
    simp [determine_column_category, h]

/-- C6 (witness): a primary-key column named `CreatedDate` of type
`datetime` classifies as `identifier`, not `datetime`. -/
theorem c6_witness :
    determine_column_category
      { name := "CreatedDate", data_type := "datetime", is_primary_key := true } =
      "identifier" :=
  (c6_total_and_pk_precedence
    { name := "CreatedDate", data_type := "datetime", is_primary_key := true }).2 rfl

/-- C7: for every identifier (any string with a non-whitespace
character), the search-term list is duplicate-free, contains no empty
string, and contains the original identifier itself. -/
theorem c7_search_terms (technical_name : String) :
    (create_search_terms technical_name).Nodup ∧
    "" ∉ create_search_terms technical_name ∧
    (pyStrip technical_name ≠ "" → technical_name ∈ create_search_terms technical_name) := by
  unfold create_search_terms
  refine ⟨(List.nodup_dedup _).filter _, ?_, ?_⟩
  · intro hmem
    have hp := (List.mem_filter.mp hmem).2
    simp only [bne_iff_ne, ne_eq] at hp
    exact hp (by decide)
  · intro hne
    refine List.mem_filter.mpr ⟨List.mem_dedup.mpr ?_, by simpa [bne_iff_ne] using hne⟩
    simp

/-- C7 (witness): the search terms of `"CustomerID"`. -/
theorem c7_witness :
    (create_search_terms "CustomerID").Nodup ∧
    "" ∉ create_search_terms "CustomerID" ∧
    "CustomerID" ∈ create_search_terms "CustomerID" :=
  ⟨(c7_search_terms "CustomerID").1, (c7_search_terms "CustomerID").2.1,
    (c7_search_terms "CustomerID").2.2 (by decide)⟩

/-- C10: an identifier consisting exactly of a recognized technical
suffix is stripped to nothing: `convert_technical_to_natural` returns
the empty string, with no fallback to the original identifier. -/
theorem c10_bare_suffixes :
    convert_technical_to_natural "_id" = "" ∧
    convert_technical_to_natural "_key" = "" ∧
    convert_technical_to_natural "_ref" = "" ∧
    convert_technical_to_natural "_tbl" = "" ∧
    convert_technical_to_natural "_table" = "" := by
  decide

/- Character-level lemmas towards the idempotence of `normalize_text`. -/

theorem charOfNat_toNat {n : Nat} (h1 : 65 ≤ n) (h2 : n ≤ 90) :
    (Char.ofNat (n + 32)).toNat = n + 32 := by
  interval_cases n <;> decide

theorem toNat_toLowerChar (c : Char) :
    (toLowerChar c).toNat =
      if 65 ≤ c.toNat ∧ c.toNat ≤ 90 then c.toNat + 32 else c.toNat := by
  by_cases h : 65 ≤ c.toNat ∧ c.toNat ≤ 90
  · simp only [toLowerChar, if_pos h]
    exact charOfNat_toNat h.1 h.2
  · simp only [toLowerChar, if_neg h]

theorem toLowerChar_eq_self {c : Char} (h : ¬(65 ≤ c.toNat ∧ c.toNat ≤ 90)) :
    toLowerChar c = c := by
  simp only [toLowerChar, if_neg h]

theorem isAsciiAlnum_toLowerChar (c : Char) (h : isAsciiAlnum c = true) :
    isAsciiAlnum (toLowerChar c) = true := by
  simp only [isAsciiAlnum, decide_eq_true_eq] at h ⊢
  rw [toNat_toLowerChar]
  split
  · omega
  · omega

theorem isPySpace_toLowerChar (c : Char) : isPySpace (toLowerChar c) = isPySpace c := by
  simp only [isPySpace]
  rw [toNat_toLowerChar]
  split
  · rw [decide_eq_decide]
    omega
  · rfl

theorem toLowerChar_idem (c : Char) : toLowerChar (toLowerChar c) = toLowerChar c := by
  by_cases h : 65 ≤ c.toNat ∧ c.toNat ≤ 90
  · apply toLowerChar_eq_self
    rw [toNat_toLowerChar, if_pos h]
    omega
  · simp [toLowerChar_eq_self h]

theorem normChar_idem (c : Char) : normChar (normChar c) = normChar c := by
  by_cases h : (isAsciiAlnum c || isPySpace c) = true
  · have hstep : stepChar c = c := by simp only [stepChar, if_pos h]
    have hcond : (isAsciiAlnum (toLowerChar c) || isPySpace (toLowerChar c)) = true := by
      simp only [Bool.or_eq_true] at h ⊢
      rcases h with ha | hs
      · exact Or.inl (isAsciiAlnum_toLowerChar c ha)
      · rw [isPySpace_toLowerChar]
        exact Or.inr hs
    have hstep2 : stepChar (toLowerChar c) = toLowerChar c := by
      simp only [stepChar, if_pos hcond]
    unfold normChar
    rw [hstep, hstep2, toLowerChar_idem]
  · have hstep : stepChar c = ' ' := by simp only [stepChar, if_neg h]
    unfold normChar
    rw [hstep]
    decide

/- Word-splitting lemmas towards the idempotence of `normalize_text`. -/

theorem pyWordsAux_sound :
    ∀ (l acc : List Char), (∀ c ∈ acc, isPySpace c = false) →
      ∀ w ∈ pyWordsAux l acc,
        w ≠ [] ∧ ∀ c ∈ w, isPySpace c = false ∧ (c ∈ l ∨ c ∈ acc) := by
  intro l
  induction l with
  | nil =>
    intro acc hacc w hw
    unfold pyWordsAux at hw
    split at hw
    · simp at hw
    · rename_i hne
      simp only [List.mem_singleton] at hw
      subst hw
      refine ⟨by simpa using hne, fun c hc => ?_⟩
      rw [List.mem_reverse] at hc
      exact ⟨hacc c hc, Or.inr hc⟩
  | cons a as ih =>
    intro acc hacc w hw
    unfold pyWordsAux at hw
    by_cases hsp : isPySpace a = true
    · rw [if_pos hsp] at hw
      by_cases hae : acc = []
      · rw [if_pos hae] at hw
        have h0 := ih [] (by simp) w hw
        refine ⟨h0.1, fun c hc => ⟨(h0.2 c hc).1, ?_⟩⟩
        rcases (h0.2 c hc).2 with h | h
        · exact Or.inl (List.mem_cons_of_mem _ h)
        · simp at h
      · rw [if_neg hae] at hw
        rcases List.mem_cons.mp hw with rfl | hw2
        · refine ⟨by simpa using hae, fun c hc => ?_⟩
          rw [List.mem_reverse] at hc
          exact ⟨hacc c hc, Or.inr hc⟩
        · have h0 := ih [] (by simp) w hw2
          refine ⟨h0.1, fun c hc => ⟨(h0.2 c hc).1, ?_⟩⟩
          rcases (h0.2 c hc).2 with h | h
          · exact Or.inl (List.mem_cons_of_mem _ h)
          · simp at h
    · rw [if_neg hsp] at hw
      have hspf : isPySpace a = false := by simpa using hsp
      have hacc2 : ∀ c ∈ a :: acc, isPySpace c = false := by
        intro c hc
        rcases List.mem_cons.mp hc with rfl | hc2
        · exact hspf
        · exact hacc c hc2
      have h0 := ih (a :: acc) hacc2 w hw
      refine ⟨h0.1, fun c hc => ⟨(h0.2 c hc).1, ?_⟩⟩
      rcases (h0.2 c hc).2 with h | h
      · exact Or.inl (List.mem_cons_of_mem _ h)
      · rcases List.mem_cons.mp h with rfl | h2
        · exact Or.inl (List.mem_cons_self _ _)
        · exact Or.inr h2

theorem pyWords_sound (l : List Char) :
    ∀ w ∈ pyWords l, w ≠ [] ∧ ∀ c ∈ w, isPySpace c = false ∧ c ∈ l := by
  intro w hw
  have h0 := pyWordsAux_sound l [] (by simp) w hw
  refine ⟨h0.1, fun c hc => ⟨(h0.2 c hc).1, ?_⟩⟩
  rcases (h0.2 c hc).2 with h | h
  · exact h
  · simp at h

theorem pyWordsAux_append_word :
    ∀ (w l acc : List Char), (∀ c ∈ w, isPySpace c = false) →
      pyWordsAux (w ++ l) acc = pyWordsAux l (w.reverse ++ acc) := by
  intro w
  induction w with
  | nil => intro l acc _; simp
  | cons a w ih =>
    intro l acc hw
    have ha : isPySpace a = false := hw a (List.mem_cons_self _ _)
    show pyWordsAux (a :: (w ++ l)) acc = _
    simp only [pyWordsAux]
    rw [if_neg (by simp [ha])]
    rw [ih l (a :: acc) (fun c hc => hw c (List.mem_cons_of_mem _ hc))]
    congr 1
    simp

theorem pyWords_joinSp :
    ∀ ws : List (List Char),
      (∀ w ∈ ws, w ≠ [] ∧ ∀ c ∈ w, isPySpace c = false) →
      pyWords (joinSp ws) = ws := by
  intro ws
  induction ws with
  | nil => intro _; rfl
  | cons w rest ih =>
    intro h
    have hw := h w (List.mem_cons_self _ _)
    cases rest with
    | nil =>
      have h2 := pyWordsAux_append_word w [] [] hw.2
      rw [List.append_nil, List.append_nil] at h2
      show pyWords w = [w]
      unfold pyWords
      rw [h2]
      simp only [pyWordsAux]
      rw [if_neg (by simpa using hw.1)]
      rw [List.reverse_reverse]
    | cons w2 rest2 =>
      show pyWords (w ++ ' ' :: joinSp (w2 :: rest2)) = w :: w2 :: rest2
      unfold pyWords
      rw [pyWordsAux_append_word w _ [] hw.2]
      simp only [List.append_nil, pyWordsAux]
      rw [if_pos (by decide), if_neg (by simpa using hw.1)]
      rw [List.reverse_reverse]
      congr 1
      exact ih (fun x hx => h x (List.mem_cons_of_mem _ hx))

theorem joinSp_chars :
    ∀ (ws : List (List Char)) (c : Char), c ∈ joinSp ws → c = ' ' ∨ ∃ w ∈ ws, c ∈ w := by
  intro ws
  induction ws with
  | nil => intro c hc; simp [joinSp] at hc
  | cons w rest ih =>
    intro c hc
    cases rest with
    | nil =>
      exact Or.inr ⟨w, List.mem_cons_self _ _, hc⟩
    | cons w2 rest2 =>
      rcases List.mem_append.mp hc with h | h
      · exact Or.inr ⟨w, List.mem_cons_self _ _, h⟩
      · rcases List.mem_cons.mp h with rfl | h2
        · exact Or.inl rfl
        · rcases ih c h2 with h3 | ⟨w', hw', hcw'⟩
          · exact Or.inl h3
          · exact Or.inr ⟨w', List.mem_cons_of_mem _ hw', hcw'⟩

theorem map_eq_of_fixpoints {α : Type} (f : α → α) :
    ∀ l : List α, (∀ x ∈ l, f x = x) → l.map f = l := by
  intro l
  induction l with
  | nil => intro _; rfl
  | cons a l ih =>
    intro h
    simp only [List.map_cons]
    rw [h a (List.mem_cons_self _ _), ih (fun x hx => h x (List.mem_cons_of_mem _ hx))]

theorem normalizeL_idem (l : List Char) : normalizeL (normalizeL l) = normalizeL l := by
  have hcomp : toLowerChar ∘ stepChar = normChar := rfl
  unfold normalizeL
  simp only [List.map_map, hcomp]
  have hsound := pyWords_sound (l.map normChar)
  have hfix : ∀ c ∈ joinSp (pyWords (l.map normChar)), normChar c = c := by
    intro c hc
    rcases joinSp_chars _ c hc with rfl | ⟨w, hw, hcw⟩
    · decide
    · have h1 := (hsound w hw).2 c hcw
      rcases List.mem_map.mp h1.2 with ⟨c0, _, rfl⟩
      exact normChar_idem c0
  rw [map_eq_of_fixpoints normChar _ hfix]
  rw [pyWords_joinSp _ (fun w hw => ⟨(hsound w hw).1, fun c hc => ((hsound w hw).2 c hc).1⟩)]

/-- C9: `normalize_text` is idempotent: applying it twice is the same
as applying it once, for every input string. -/
theorem c9_normalize_idempotent (s : String) :
    normalize_text (normalize_text s) = normalize_text s :=
  congrArg String.mk (normalizeL_idem s.data)

/- Dictionary lemmas towards the summary counts of
`generate_database_mapping` (C8). -/

theorem dictInsert_of_not_mem {β : Type} (d : List (String × β)) (k : String) (v : β)
    (h : k ∉ d.map Prod.fst) : dictInsert d k v = d ++ [(k, v)] := by
  have hfalse : ¬(d.any (fun kv => kv.1 == k) = true) := by
    intro hany
    rw [List.any_eq_true] at hany
    rcases hany with ⟨kv, hkv, hbeq⟩
    exact h (List.mem_map.mpr ⟨kv, hkv, by simpa using hbeq⟩)
  unfold dictInsert
  rw [if_neg hfalse]

theorem buildTables_eq :
    ∀ (si : List (String × TableInfo)) (acc : List (String × TableMapping)),
      (si.map Prod.fst).Nodup →
      (∀ k ∈ si.map Prod.fst, k ∉ acc.map Prod.fst) →
      buildTables si acc = acc ++ si.map (fun kv => (kv.1, generate_table_mapping kv.2)) := by
  intro si
  induction si with
  | nil => intro acc _ _; simp [buildTables]
  | cons kv rest ih =>
    intro acc hnd hdisj
    obtain ⟨tn, ti⟩ := kv
    simp only [List.map_cons, List.nodup_cons] at hnd
    simp only [buildTables]
    rw [dictInsert_of_not_mem _ _ _ (hdisj tn (by simp))]
    rw [ih (acc ++ [(tn, generate_table_mapping ti)]) hnd.2 ?_]
    · simp
    · intro k hk hmem
      simp only [List.map_append, List.mem_append] at hmem
      rcases hmem with hka | hkt
      · exact hdisj k (List.mem_cons_of_mem _ hk) hka
      · have hkeq : k = tn := by simpa using hkt
        exact hnd.1 (hkeq ▸ hk)

theorem buildColumns_eq (ti : TableInfo) :
    ∀ (cols : List ColumnInfo) (acc : List (String × ColumnMapping)),
      (cols.map ColumnInfo.name).Nodup →
      (∀ k ∈ cols.map ColumnInfo.name, k ∉ acc.map Prod.fst) →
      buildColumns ti cols acc =
        acc ++ cols.map (fun c => (c.name, generate_column_mapping ti c)) := by
  intro cols
  induction cols with
  | nil => intro acc _ _; simp [buildColumns]
  | cons c rest ih =>
    intro acc hnd hdisj
    simp only [List.map_cons, List.nodup_cons] at hnd
    simp only [buildColumns]
    rw [dictInsert_of_not_mem _ _ _ (hdisj c.name (by simp))]
    rw [ih (acc ++ [(c.name, generate_column_mapping ti c)]) hnd.2 ?_]
    · simp
    · intro k hk hmem
      simp only [List.map_append, List.mem_append] at hmem
      rcases hmem with hka | hkt
      · exact hdisj k (List.mem_cons_of_mem _ hk) hka
      · have hkeq : k = c.name := by simpa using hkt
        exact hnd.1 (hkeq ▸ hk)

theorem generate_table_mapping_columns_length (ti : TableInfo)
    (h : (ti.columns.map ColumnInfo.name).Nodup) :
    (generate_table_mapping ti).columns.length = ti.columns.length := by
  simp [generate_table_mapping, buildColumns_eq ti ti.columns [] h (by simp)]

/-- C8: `generate_database_mapping` returns an absent result exactly on
an empty table set; otherwise `total_tables` is the number of input
tables and `total_columns` the sum of their column counts (table keys
are dict keys, hence distinct; column names are distinct per table). -/
theorem c8_database_mapping (client_key client_name database : String)
    (si : List (String × TableInfo))
    (hkeys : (si.map Prod.fst).Nodup)
    (hcols : ∀ kv ∈ si, (kv.2.columns.map ColumnInfo.name).Nodup) :
    (generate_database_mapping client_key client_name database si = none ↔ si = []) ∧
    ∀ m, generate_database_mapping client_key client_name database si = some m →
      m.client_info.total_tables = si.length ∧
      m.client_info.total_columns = (si.map (fun kv => kv.2.columns.length)).sum := by
  have htables : buildTables si [] =
      si.map (fun kv => (kv.1, generate_table_mapping kv.2)) := by
    simpa using buildTables_eq si [] hkeys (by simp)
  refine ⟨⟨?_, ?_⟩, ?_⟩
  · intro h
    unfold generate_database_mapping at h
    split at h
    · rename_i hcond
      simpa using hcond
    · exact absurd h (by simp)
  · rintro rfl
    rfl
  · intro m hm
    unfold generate_database_mapping at hm
    split at hm
    · exact absurd hm (by simp)
    · injection hm with hm
      subst hm
      constructor
      · show (buildTables si []).length = si.length
        rw [htables]
        simp
      · show ((buildTables si []).map (fun kv => kv.2.columns.length)).sum = _
        rw [htables, List.map_map]
        congr 1
        apply List.map_congr_left
        intro kv hkv
        exact generate_table_mapping_columns_length kv.2 (hcols kv hkv)

/-- C8 (witness): on the one-table, two-column sample schema the
mapping is present with `total_tables = 1` and `total_columns = 2`. -/
theorem c8_witness :
    Option.map (fun m => (m.client_info.total_tables, m.client_info.total_columns))
      (generate_database_mapping "acme" "Acme Corp" "SalesDB" sampleSchema) =
      some (1, 2) := by
  have h := c8_database_mapping "acme" "Acme Corp" "SalesDB" sampleSchema
    (by decide) (by decide)
  cases hgen : generate_database_mapping "acme" "Acme Corp" "SalesDB" sampleSchema with
  | none => exact absurd (h.1.mp hgen) (by simp [sampleSchema])
  | some m =>
    have h2 := h.2 m hgen
    have hpair : (m.client_info.total_tables, m.client_info.total_columns) = (1, 2) := by
      rw [h2.1, h2.2]
      decide
    simp [hpair]

/- Lemmas towards the search-index invariant (C1). -/

theorem keyUniq {β : Type} :
    ∀ (l : List (String × β)), (l.map Prod.fst).Nodup →
      ∀ {k : String} {v v' : β}, (k, v) ∈ l → (k, v') ∈ l → v = v' := by
  intro l
  induction l with
  | nil => intro _ k v v' h _; simp at h
  | cons a rest ih =>
    intro hnd k v v' h1 h2
    simp only [List.map_cons, List.nodup_cons] at hnd
    rcases List.mem_cons.mp h1 with rfl | h1'
    · rcases List.mem_cons.mp h2 with h2e | h2'
      · exact (Prod.mk.inj h2e.symm).2
      · exact absurd (List.mem_map.mpr ⟨(k, v'), h2', rfl⟩) hnd.1
    · rcases List.mem_cons.mp h2 with h2e | h2'
      · have hk : k ∈ rest.map Prod.fst := List.mem_map.mpr ⟨(k, v), h1', rfl⟩
        rw [← h2e] at hnd
        exact absurd hk hnd.1
      · exact ih hnd.2 h1' h2'

theorem IndexInv_addTablePath (si : List (String × TableInfo))
    (hkeys : (si.map Prod.fst).Nodup) (idx : SIdx) (hinv : IndexInv si idx)
    (t tn : String) (ti : TableInfo) (hmem : (tn, ti) ∈ si)
    (ht : t ∈ (create_search_terms ti.name).map strLower) :
    IndexInv si (addTablePath idx t tn) := by
  obtain ⟨hnd, hprops⟩ := hinv
  unfold addTablePath
  split
  · refine ⟨?_, ?_⟩
    · have hfst : (idx.map fun kv => if kv.1 == t then (kv.1, kv.2 ++ [tn]) else kv).map
          Prod.fst = idx.map Prod.fst := by
        rw [List.map_map]
        apply List.map_congr_left
        intro kv _
        by_cases hkv : kv.1 = t <;> simp [hkv]
      rw [hfst]
      exact hnd
    · intro tb htb
      rcases List.mem_map.mp htb with ⟨kv, hkv, rfl⟩
      by_cases hkvt : kv.1 == t
      · rw [if_pos hkvt]
        refine ⟨?_, ?_⟩
        · intro p hp
          rw [List.count_append]
          have hori := (hprops kv hkv).1 p hp
          have hne : p ≠ tn := by
            intro he
            exact hp (he ▸ List.mem_map.mpr ⟨(tn, ti), hmem, rfl⟩)
          have hz : List.count p [tn] = 0 := by
            rw [List.count_eq_zero]
            simp [hne]
          omega
        · intro kv2 hkv2 hmem2
          rcases List.mem_append.mp hmem2 with h | h
          · exact (hprops kv hkv).2 kv2 hkv2 h
          · obtain ⟨k2, v2⟩ := kv2
            have hpt : k2 = tn := by simpa using h
            subst hpt
            have heq : v2 = ti := keyUniq si hkeys hkv2 hmem
            have hkt : kv.1 = t := by simpa using hkvt
            simp only [hkt, heq]
            exact ht
      · rw [if_neg hkvt]
        exact hprops kv hkv
  · rename_i hany
    refine ⟨?_, ?_⟩
    · rw [List.map_append, List.nodup_append]
      refine ⟨hnd, by simp, ?_⟩
      intro a ha hb
      have hat : a = t := by simpa using hb
      subst hat
      apply hany
      rw [List.any_eq_true]
      rcases List.mem_map.mp ha with ⟨kv, hkv, rfl⟩
      exact ⟨kv, hkv, by simp⟩
    · intro tb htb
      rcases List.mem_append.mp htb with h | h
      · exact hprops tb h
      · have htbe : tb = (t, [tn]) := by simpa using h
        subst htbe
        refine ⟨?_, ?_⟩
        · intro p _
          calc List.count p [tn] ≤ [tn].length := List.count_le_length _ _
            _ = 1 := rfl
        · intro kv2 hkv2 hmem2
          obtain ⟨k2, v2⟩ := kv2
          have hpt : k2 = tn := by simpa using hmem2
          subst hpt
          have heq : v2 = ti := keyUniq si hkeys hkv2 hmem
          simp only [heq]
          exact ht

theorem IndexInv_addColPath (si : List (String × TableInfo)) (idx : SIdx)
    (hinv : IndexInv si idx) (t p0 : String) (hp0 : ∀ kv ∈ si, p0 ≠ kv.1) :
    IndexInv si (addColPath idx t p0) := by
  obtain ⟨hnd, hprops⟩ := hinv
  unfold addColPath
  split
  · refine ⟨?_, ?_⟩
    · have hfst : (idx.map fun kv =>
          if kv.1 == t then (kv.1, if kv.2.contains p0 then kv.2 else kv.2 ++ [p0])
          else kv).map Prod.fst = idx.map Prod.fst := by
        rw [List.map_map]
        apply List.map_congr_left
        intro kv _
        by_cases hkv : kv.1 = t <;> simp [hkv]
      rw [hfst]
      exact hnd
    · intro tb htb
      rcases List.mem_map.mp htb with ⟨kv, hkv, rfl⟩
      by_cases hkvt : kv.1 == t
      · rw [if_pos hkvt]
        by_cases hcont : kv.2.contains p0
        · rw [if_pos hcont]
          exact hprops kv hkv
        · rw [if_neg hcont]
          refine ⟨?_, ?_⟩
          · intro p hp
            rw [List.count_append]
            have hori := (hprops kv hkv).1 p hp
            by_cases hpe : p = p0
            · subst hpe
              have hnm : p ∉ kv.2 := by
                intro hin
                exact hcont (List.elem_iff.mpr hin)
              rw [List.count_eq_zero.mpr hnm]
              have hle : List.count p [p] ≤ [p].length := List.count_le_length _ _
              simp only [List.length_singleton] at hle
              omega
            · have hz : List.count p [p0] = 0 := by
                rw [List.count_eq_zero]
                simp [hpe]
              omega
          · intro kv2 hkv2 hmem2
            rcases List.mem_append.mp hmem2 with h | h
            · exact (hprops kv hkv).2 kv2 hkv2 h
            · have hpt : kv2.1 = p0 := by simpa using h
              exact absurd hpt.symm (hp0 kv2 hkv2)
      · rw [if_neg hkvt]
        exact hprops kv hkv
  · rename_i hany
    refine ⟨?_, ?_⟩
    · rw [List.map_append, List.nodup_append]
      refine ⟨hnd, by simp, ?_⟩
      intro a ha hb
      have hat : a = t := by simpa using hb
      subst hat
      apply hany
      rw [List.any_eq_true]
      rcases List.mem_map.mp ha with ⟨kv, hkv, rfl⟩
      exact ⟨kv, hkv, by simp⟩
    · intro tb htb
      rcases List.mem_append.mp htb with h | h
      · exact hprops tb h
      · have htbe : tb = (t, [p0]) := by simpa using h
        subst htbe
        refine ⟨?_, ?_⟩
        · intro p _
          calc List.count p [p0] ≤ [p0].length := List.count_le_length _ _
            _ = 1 := rfl
        · intro kv2 hkv2 hmem2
          have hpt : kv2.1 = p0 := by simpa using hmem2
          exact absurd hpt.symm (hp0 kv2 hkv2)

theorem IndexInv_indexTableTerms (si : List (String × TableInfo))
    (hkeys : (si.map Prod.fst).Nodup) (tn : String) (ti : TableInfo)
    (hmem : (tn, ti) ∈ si) :
    ∀ (terms : List String), (∀ t ∈ terms, t ∈ create_search_terms ti.name) →
      ∀ idx, IndexInv si idx → IndexInv si (indexTableTerms tn terms idx) := by
  intro terms
  induction terms with
  | nil => intro _ idx hinv; exact hinv
  | cons t ts ih =>
    intro hsub idx hinv
    simp only [indexTableTerms]
    apply ih (fun x hx => hsub x (List.mem_cons_of_mem _ hx))
    exact IndexInv_addTablePath si hkeys idx hinv (strLower t) tn ti hmem
      (List.mem_map.mpr ⟨t, hsub t (List.mem_cons_self _ _), rfl⟩)

theorem IndexInv_indexColTerms (si : List (String × TableInfo)) (p0 : String)
    (hp0 : ∀ kv ∈ si, p0 ≠ kv.1) :
    ∀ (terms : List String) (idx : SIdx),
      IndexInv si idx → IndexInv si (indexColTerms p0 terms idx) := by
  intro terms
  induction terms with
  | nil => intro idx hinv; exact hinv
  | cons t ts ih =>
    intro idx hinv
    simp only [indexColTerms]
    apply ih
    exact IndexInv_addColPath si idx hinv (strLower t) p0 hp0

theorem IndexInv_indexColumns (si : List (String × TableInfo)) (tn : String) :
    ∀ (cols : List ColumnInfo),
      (∀ c ∈ cols, ∀ kv ∈ si, (tn ++ "." ++ c.name) ≠ kv.1) →
      ∀ idx, IndexInv si idx → IndexInv si (indexColumns tn cols idx) := by
  intro cols
  induction cols with
  | nil => intro _ idx hinv; exact hinv
  | cons c cs ih =>
    intro hsep idx hinv
    simp only [indexColumns]
    apply ih (fun x hx => hsep x (List.mem_cons_of_mem _ hx))
    exact IndexInv_indexColTerms si (tn ++ "." ++ c.name)
      (hsep c (List.mem_cons_self _ _)) (create_search_terms c.name) idx hinv

theorem IndexInv_indexTables (si : List (String × TableInfo))
    (hkeys : (si.map Prod.fst).Nodup)
    (hsep : ∀ kv ∈ si, ∀ kv2 ∈ si, ∀ c ∈ kv2.2.columns, kv.1 ≠ kv2.1 ++ "." ++ c.name) :
    ∀ (l : List (String × TableInfo)), (∀ x ∈ l, x ∈ si) →
      ∀ idx, IndexInv si idx → IndexInv si (indexTables l idx) := by
  intro l
  induction l with
  | nil => intro _ idx hinv; exact hinv
  | cons kv rest ih =>
    intro hsub idx hinv
    obtain ⟨tn, ti⟩ := kv
    simp only [indexTables]
    apply ih (fun x hx => hsub x (List.mem_cons_of_mem _ hx))
    refine IndexInv_indexColumns si tn ti.columns ?_ _ ?_
    · intro c hc kv2 hkv2
      exact (hsep kv2 hkv2 (tn, ti) (hsub (tn, ti) (List.mem_cons_self _ _)) c hc).symm
    · exact IndexInv_indexTableTerms si hkeys tn ti (hsub (tn, ti) (List.mem_cons_self _ _))
        (create_search_terms ti.name) (fun x hx => hx) idx hinv

/-- C1 (counterexample): on a single table named `Customer` (no
columns, dict key `dbo.Customer`), the search terms `Customer` and
`customer` both lowercase to `customer`, and the table branch appends
the table path unconditionally, so the bucket of the term `customer`
holds the table path twice. -/
theorem c1_counterexample :
    generate_search_index
        [("dbo.Customer", { name := "Customer", schema := "dbo", columns := [] })] =
      [("customer", ["dbo.Customer", "dbo.Customer"])] ∧
    ¬ (["dbo.Customer", "dbo.Customer"] : List String).Nodup := by
  decide

/-- C1 (amended): in the built search index, any path that is not a
table key appears at most once per term (column appends are
deduplicated), and a table's own path appears in a bucket only under
one of the table's own lowercased search terms; table paths themselves
may be appended more than once when two distinct-case search terms
share a lowercase form. Hypotheses: the dict keys are distinct, and no
table key collides with a column path. -/
theorem c1_search_index (si : List (String × TableInfo))
    (hkeys : (si.map Prod.fst).Nodup)
    (hsep : ∀ kv ∈ si, ∀ kv2 ∈ si, ∀ c ∈ kv2.2.columns, kv.1 ≠ kv2.1 ++ "." ++ c.name) :
    ∀ tb ∈ generate_search_index si,
      (∀ p : String, p ∉ si.map Prod.fst → tb.2.count p ≤ 1) ∧
      (∀ kv ∈ si, kv.1 ∈ tb.2 → tb.1 ∈ (create_search_terms kv.2.name).map strLower) := by
  have hinv : IndexInv si (generate_search_index si) := by
    apply IndexInv_indexTables si hkeys hsep si (fun x hx => hx) []
    exact ⟨by simp, by simp⟩
  exact hinv.2

/-- C1 (witness): in the index of the sample schema, the bucket of the
term `customer` holds the column path `dbo.Customers.CustomerID`
exactly once. -/
theorem c1_witness :
    ("customer", ["dbo.Customers.CustomerID", "dbo.Customers.CustomerName"]) ∈
      generate_search_index sampleSchema ∧
    List.count "dbo.Customers.CustomerID"
      ["dbo.Customers.CustomerID", "dbo.Customers.CustomerName"] ≤ 1 :=
  ⟨by decide,
    (c1_search_index sampleSchema (by decide) (by decide)
      ("customer", ["dbo.Customers.CustomerID", "dbo.Customers.CustomerName"])
      (by decide)).1 "dbo.Customers.CustomerID" (by decide)⟩

end Querymancer
